import Mathlib

/-!
Verification of the `progressed_hashing` library (src/lib.rs): a shallow
embedding of its data model, file enumeration, hashing, and event pipeline,
with theorems checking the natural-language specification against it.
-/

namespace ProgressedHashing

/-! ## Data model (src/lib.rs lines 14-35) -/

/-- Enum representing possible errors during the hashing process
(`ProgressHashingError` in src/lib.rs). -/
inductive ProgressHashingError where
  | ErrHashingFile
  | ErrCollectingFiles
deriving DecidableEq

/-- Struct representing the current file update status
(`CurrentFileUpdate` in src/lib.rs). Paths are modelled as strings;
`usize` is modelled as `Nat` (no overflow is reachable for file counts). -/
structure CurrentFileUpdate where
  current_file : String
  total_hashed_files : Nat
deriving DecidableEq

/-- Enum representing the work status of the hashing process
(`WorkStatus` in src/lib.rs). The `HashMap<PathBuf, String>` payload of
`Result` is modelled as the association list of (path, digest) pairs that
the rayon `collect()` builds it from; walkdir yields pairwise distinct
paths, so key collisions do not arise in a run of the program. -/
inductive WorkStatus where
  | Started (total : Nat)
  | Progress (update : CurrentFileUpdate)
  | Result (digests : List (String × String))
  | Error (err : ProgressHashingError)
deriving DecidableEq

/-! ## File-system model

The directory-walking mechanism (`walkdir::WalkDir`) is an external
dependency of the crate; the spec treats it as an opaque provider of a
lazy sequence of entries or a traversal error. We model the file system
as a tree in which any node may also be an error node (an entry whose
read fails, e.g. a nonexistent root or an unreadable subdirectory), and
`walkItems` yields the depth-first entry sequence exactly as
`WalkDir::new(dir)` does: the root itself first, each entry tagged with
its file type, and an `Except.error` item where traversal faults. -/

/-- A node of the modelled file system: a regular file with byte content,
a non-regular entry (symlink, device, ...), an entry whose traversal
errors, or a directory with named children. -/
inductive FsTree where
  | file (content : List Nat) : FsTree
  | other : FsTree
  | errorNode : FsTree
  | dir (entries : List (String × FsTree)) : FsTree

/-- The file type reported by `walkdir::DirEntry::file_type()`, reduced to
what `collect_files_in_dir` inspects: `is_file()` holds only for `file`. -/
inductive FKind where
  | file
  | dir
  | other
deriving DecidableEq

mutual

/-- The entry sequence `WalkDir::new(p)` yields for the tree `t` mounted at
path `p`: depth-first, the root entry included, `Err` items where
traversal faults. Modelled from walkdir's documented iteration behaviour
(an external collaborator per the spec). -/
def walkItems (p : String) : FsTree → List (Except Unit (String × FKind))
  | FsTree.file _ => [Except.ok (p, FKind.file)]
  | FsTree.other => [Except.ok (p, FKind.other)]
  | FsTree.errorNode => [Except.error ()]
  | FsTree.dir es => Except.ok (p, FKind.dir) :: walkItemsList p es

/-- Entry sequences of a directory's children, concatenated in order. -/
def walkItemsList (p : String) : List (String × FsTree) → List (Except Unit (String × FKind))
  | [] => []
  | (n, t) :: rest => walkItems (p ++ "/" ++ n) t ++ walkItemsList p rest

end

/-- The loop body of `collect_files_in_dir` (src/lib.rs lines 46-55):
`entry?` aborts with the first traversal error, `is_file()` entries are
pushed onto the accumulator. -/
def collectLoop : List (Except Unit (String × FKind)) → List String → Except Unit (List String)
  | [], acc => Except.ok acc
  | Except.error _ :: _, _ => Except.error ()
  | Except.ok (path, k) :: rest, acc =>
      collectLoop rest (if k = FKind.file then acc ++ [path] else acc)

/-- `collect_files_in_dir` (src/lib.rs lines 46-55): iterate
`WalkDir::new(dir)`, propagate the first error, collect regular files. -/
def collect_files_in_dir (dir : String) (t : FsTree) : Except Unit (List String) :=
  collectLoop (walkItems dir t) []

mutual

/-- The regular-file paths of the tree `t` mounted at `p`, in depth-first
order: the reference enumeration against which `collect_files_in_dir` is
characterised. -/
def pureFiles (p : String) : FsTree → List String
  | FsTree.file _ => [p]
  | FsTree.other => []
  | FsTree.errorNode => []
  | FsTree.dir es => pureFilesList p es

/-- Regular-file paths of a directory's children, concatenated in order. -/
def pureFilesList (p : String) : List (String × FsTree) → List String
  | [] => []
  | (n, t) :: rest => pureFiles (p ++ "/" ++ n) t ++ pureFilesList p rest

end

mutual

/-- Whether walking the tree hits no traversal error. -/
def errorFree : FsTree → Bool
  | FsTree.file _ => true
  | FsTree.other => true
  | FsTree.errorNode => false
  | FsTree.dir es => errorFreeList es

/-- Whether every child of a directory walks without a traversal error. -/
def errorFreeList : List (String × FsTree) → Bool
  | [] => true
  | (_, t) :: rest => errorFree t && errorFreeList rest

end

/-! ## Content hasher (src/lib.rs lines 66-71)

`calculate_hash_with_blake3` opens the file, streams its bytes through
`blake3::Hasher`, and returns `hasher.finalize().to_hex().to_string()`.
The blake3 algorithm itself is an external collaborator the spec treats
as opaque; what matters here is that it is a deterministic function of
the byte content with a 32-byte (256-bit) digest, rendered as lowercase
hexadecimal by `to_hex()`. Reading the file is modelled by a `read` map
from paths to byte contents (or a read error), so that a file deleted or
made unreadable between enumeration and hashing is representable. -/

/-- Model of the external blake3 collaborator: a deterministic function of
the byte content producing a 32-byte digest (each byte < 256). The mixing
rule is a stand-in, since the spec places the algorithm's internals out
of scope; every property proved about it uses only determinism, the
32-byte length and the byte range. -/
def blake3Bytes (content : List Nat) : List Nat :=
  (List.range 32).map
    (fun i => content.foldl (fun a b => (a * 31 + b % 256 + 1) % 256) ((i + 7) % 256))

/-- The hexadecimal character for a nibble, lowercase as `to_hex` emits. -/
def hexDigit (n : Nat) : Char :=
  if n < 10 then Char.ofNat (48 + n) else Char.ofNat (87 + n)

/-- Two lowercase hexadecimal characters for one byte. -/
def byteToHex (b : Nat) : List Char := [hexDigit (b / 16), hexDigit (b % 16)]

/-- `Hash::to_hex().to_string()`: the digest bytes as a lowercase
hexadecimal string. -/
def toHex (bs : List Nat) : String := String.mk (bs.flatMap byteToHex)

/-- `calculate_hash_with_blake3` (src/lib.rs lines 66-71): open the file at
`path` (an `io::Error` propagates), stream its full contents through the
hasher, return the lowercase hex digest. The streaming `io::copy` is
byte-content-equivalent to hashing the whole content. -/
def calculate_hash_with_blake3 (read : String → Except Unit (List Nat))
    (path : String) : Except Unit String :=
  match read path with
  | Except.error e => Except.error e
  | Except.ok content => Except.ok (toHex (blake3Bytes content))

/-! ## Worker phase (src/lib.rs lines 99-124)

Inside `spawn_blocking`, `file_paths.par_iter().map(...)` hashes each file:
on success it does `fetch_add(1, SeqCst)` on the shared counter and sends a
`Progress` event carrying the pre-increment value; on failure it sends
`Error(ErrHashingFile)` and contributes `(path, "")` to the map. rayon's
scheduling makes the processing order an arbitrary permutation of the
enumerated list, so the embedding takes the processing order as an explicit
list parameter `order`; theorems quantify over permutations. Because the
counter update is an atomic fetch-and-increment, any interleaving gives the
k-th successful file (in increment order) the pre-increment value k-1; the
linearisation below processes files atomically in `order`, and delivery-
order nondeterminism (a worker's send racing other workers' sends) is
recovered in the theorems by quantifying over permutations of the produced
file-level events. -/

/-- One worker body (src/lib.rs lines 103-118) at counter value `c`:
returns the new counter value, the event sent, and the map entry. -/
def workerStep (read : String → Except Unit (List Nat)) (c : Nat) (path : String) :
    Nat × WorkStatus × (String × String) :=
  match calculate_hash_with_blake3 read path with
  | Except.ok hash =>
      (c + 1, WorkStatus.Progress ⟨path, c⟩, (path, hash))
  | Except.error _ =>
      (c, WorkStatus.Error ProgressHashingError.ErrHashingFile, (path, ""))

/-- The worker phase over the files in processing order, threading the
shared counter from `c`: the list of file-level events sent (in increment
order) and the (path, digest) pairs collected into the result map. -/
def workerRun (read : String → Except Unit (List Nat)) :
    List String → Nat → List WorkStatus × List (String × String)
  | [], _ => ([], [])
  | p :: rest, c =>
      let s := workerStep read c p
      let r := workerRun read rest s.1
      (s.2.1 :: r.1, s.2.2 :: r.2)

/-- The file-level events of the worker phase, counter starting at 0. -/
def workerEvents (read : String → Except Unit (List Nat)) (order : List String) :
    List WorkStatus :=
  (workerRun read order 0).1

/-- The (path, digest) pairs the worker phase collects into the result map. -/
def workerDigests (read : String → Except Unit (List Nat)) (order : List String) :
    List (String × String) :=
  (workerRun read order 0).2

/-! ## The pipeline (src/lib.rs lines 82-127) -/

/-- What one invocation of `progressed_hashing` sends into the channel,
split at the function's return point: `sentBeforeReturn` are the sends
executed synchronously in the async function body before the stream is
handed back (the `Started`(N) send on successful enumeration, or the
`Error(ErrCollectingFiles)` send on traversal failure);
`blockingTask` are the sends the `spawn_blocking` task performs afterwards.
The channel is FIFO, so the delivered sequence is
`sentBeforeReturn ++ blockingTask`. -/
structure PipelineReturn where
  sentBeforeReturn : List WorkStatus
  blockingTask : List WorkStatus
deriving DecidableEq

/-- `progressed_hashing` (src/lib.rs lines 82-127) on the file system
`(rootPath, t)`, with hash-time reads given by `read` and rayon processing
order `order` (a permutation of the enumerated list, per the hypotheses of
the theorems below). On enumeration failure it sends the single
`ErrCollectingFiles` error and returns the stream with no task spawned;
on success it sends `Started(N)` and spawns the worker phase, which ends
by sending the `Result` map. -/
def progressed_hashing (rootPath : String) (t : FsTree)
    (read : String → Except Unit (List Nat)) (order : List String) : PipelineReturn :=
  match collect_files_in_dir rootPath t with
  | Except.error _ =>
      { sentBeforeReturn := [WorkStatus.Error ProgressHashingError.ErrCollectingFiles]
        blockingTask := [] }
  | Except.ok paths =>
      { sentBeforeReturn := [WorkStatus.Started paths.length]
        blockingTask := workerEvents read order ++ [WorkStatus.Result (workerDigests read order)] }

/-- The full event sequence delivered to a consumer that keeps the
receiver open: channel FIFO delivery of all sends. -/
def eventsOf (run : PipelineReturn) : List WorkStatus :=
  run.sentBeforeReturn ++ run.blockingTask

/-! ## Event classifiers -/

/-- A file-level event: a `Progress` update or a per-file hashing error. -/
def isFileLevelEvent : WorkStatus → Bool
  | WorkStatus.Progress _ => true
  | WorkStatus.Error ProgressHashingError.ErrHashingFile => true
  | _ => false

/-- A `Progress` event. -/
def isProgressEvent : WorkStatus → Bool
  | WorkStatus.Progress _ => true
  | _ => false

/-- The `total_hashed_files` values carried by the `Progress` events of an
event list, in delivery order. -/
def progressValues (evts : List WorkStatus) : List Nat :=
  evts.filterMap (fun e =>
    match e with
    | WorkStatus.Progress u => some u.total_hashed_files
    | _ => none)

/-- Whether reading the file at `p` succeeds at hashing time. -/
def readOk (read : String → Except Unit (List Nat)) (p : String) : Bool :=
  match read p with
  | Except.ok _ => true
  | Except.error _ => false

/-- An absolute path in the Unix model: it begins with the separator. -/
def isAbsolutePath (s : String) : Bool :=
  s.data.head? = some (Char.ofNat 47)

/-! ## The channel once the receiver is dropped (src/lib.rs lines 99-124)

tokio's `UnboundedSender::send` returns `Err(SendError)` once the receiving
half has been dropped. Every send in the worker closure and the final
`Result` send are written `tx.send(...).unwrap()`, so a send into a closed
channel panics the sending code. (The `Started` and `ErrCollectingFiles`
sends happen while the function body still holds `rx` locally, before the
stream is returned, so the receiver cannot have been dropped there.) The
panic unwinds the rayon/`spawn_blocking` closure: remaining files are not
processed and the `Result` send never executes; tokio captures the panic in
the dropped join handle, so the process neither hangs nor crashes. -/

/-- The panic message produced by `.unwrap()` on a failed send. -/
def sendPanicMsg : String := "called unwrap on an Err value: SendError"

/-- `tx.send(...).unwrap()` as the code performs it: a no-op result while
the receiver is alive, a panic once it has been dropped. -/
def sendUnwrapped (receiverAlive : Bool) : Except String Unit :=
  if receiverAlive then Except.ok () else Except.error sendPanicMsg

/-- The worker phase with the receiver's liveness made explicit: each
per-file send goes through `sendUnwrapped`, and a panic aborts the
remaining work (`Except.error` propagates). -/
def workerRunWithReceiver (read : String → Except Unit (List Nat)) (alive : Bool) :
    List String → Nat → Except String (List WorkStatus × List (String × String))
  | [], _ => Except.ok ([], [])
  | p :: rest, c =>
      let s := workerStep read c p
      match sendUnwrapped alive with
      | Except.error msg => Except.error msg
      | Except.ok _ =>
          match workerRunWithReceiver read alive rest s.1 with
          | Except.error msg => Except.error msg
          | Except.ok r => Except.ok (s.2.1 :: r.1, s.2.2 :: r.2)

/-- The whole `spawn_blocking` task with the receiver's liveness explicit:
the worker phase followed by the `tx.send(WorkStatus::Result(..)).unwrap()`
send; on success it yields the list of events the task sent. -/
def blockingTaskWithReceiver (read : String → Except Unit (List Nat)) (alive : Bool)
    (order : List String) : Except String (List WorkStatus) :=
  match workerRunWithReceiver read alive order 0 with
  | Except.error msg => Except.error msg
  | Except.ok r =>
      match sendUnwrapped alive with
      | Except.error msg => Except.error msg
      | Except.ok _ => Except.ok (r.1 ++ [WorkStatus.Result r.2])

/-! ## Lemmas about the enumerator -/

/-- The collect loop over a concatenation of entry sequences: the first
error wins, otherwise the accumulator threads through. -/
theorem collectLoop_append (l1 l2 : List (Except Unit (String × FKind))) (acc : List String) :
    collectLoop (l1 ++ l2) acc =
      match collectLoop l1 acc with
      | Except.ok a => collectLoop l2 a
      | Except.error e => Except.error e := by
  induction l1 generalizing acc with
  | nil => simp [collectLoop]
  | cons hd rest ih =>
      cases hd with
      | error e => simp [collectLoop]
      | ok pk =>
          obtain ⟨path, k⟩ := pk
          simp only [List.cons_append, collectLoop]
          exact ih _

mutual

/-- Characterisation of the collect loop over a walk: if the walk is
error-free it appends exactly the regular-file paths of the tree to the
accumulator, otherwise it fails. -/
theorem collectLoop_walkItems (p : String) (t : FsTree) (acc : List String) :
    collectLoop (walkItems p t) acc =
      if errorFree t then Except.ok (acc ++ pureFiles p t) else Except.error () := by
  cases t with
  | file c => simp [walkItems, collectLoop, errorFree, pureFiles]
  | other => simp [walkItems, collectLoop, errorFree, pureFiles]
  | errorNode => simp [walkItems, collectLoop, errorFree, pureFiles]
  | dir es =>
      have h := collectLoop_walkItemsList p es acc
      simp [walkItems, collectLoop, errorFree, pureFiles, h]

/-- Characterisation of the collect loop over the walks of a directory's
children. -/
theorem collectLoop_walkItemsList (p : String) (es : List (String × FsTree)) (acc : List String) :
    collectLoop (walkItemsList p es) acc =
      if errorFreeList es then Except.ok (acc ++ pureFilesList p es) else Except.error () := by
  cases es with
  | nil => simp [walkItemsList, collectLoop, errorFreeList, pureFilesList]
  | cons hd rest =>
      obtain ⟨n, t⟩ := hd
      rw [walkItemsList, collectLoop_append, collectLoop_walkItems (p ++ "/" ++ n) t acc]
      by_cases h : errorFree t = true
      · rw [if_pos h]
        show collectLoop (walkItemsList p rest) (acc ++ pureFiles (p ++ "/" ++ n) t) = _
        rw [collectLoop_walkItemsList p rest (acc ++ pureFiles (p ++ "/" ++ n) t)]
        by_cases h2 : errorFreeList rest = true
        · simp [errorFreeList, pureFilesList, h, h2, List.append_assoc]
        · simp [errorFreeList, pureFilesList, h, h2]
      · rw [if_neg h]
        show Except.error () = _
        simp [errorFreeList, pureFilesList, h]

end

mutual

/-- Every enumerated regular-file path extends the mount path as a
string. -/
theorem pureFiles_shape (p : String) (t : FsTree) :
    ∀ q ∈ pureFiles p t, ∃ s, q = p ++ s := by
  cases t with
  | file c =>
      intro q hq
      simp [pureFiles] at hq
      exact ⟨"", by rw [hq, String.append_empty]⟩
  | other => intro q hq; simp [pureFiles] at hq
  | errorNode => intro q hq; simp [pureFiles] at hq
  | dir es =>
      intro q hq
      exact pureFilesList_shape p es q (by simpa [pureFiles] using hq)

/-- Every regular-file path enumerated under a directory's children
extends the mount path as a string. -/
theorem pureFilesList_shape (p : String) (es : List (String × FsTree)) :
    ∀ q ∈ pureFilesList p es, ∃ s, q = p ++ s := by
  cases es with
  | nil => intro q hq; simp [pureFilesList] at hq
  | cons hd rest =>
      obtain ⟨n, t⟩ := hd
      intro q hq
      rw [pureFilesList] at hq
      rcases List.mem_append.mp hq with h | h
      · obtain ⟨s, hs⟩ := pureFiles_shape (p ++ "/" ++ n) t q h
        exact ⟨"/" ++ n ++ s, by rw [hs]; simp [String.append_assoc]⟩
      · exact pureFilesList_shape p rest q h

end

/-- Extending an absolute path on the right keeps it absolute. -/
theorem isAbsolutePath_append (p s : String) (h : isAbsolutePath p = true) :
    isAbsolutePath (p ++ s) = true := by
  simp only [isAbsolutePath, decide_eq_true_eq] at h ⊢
  rw [String.data_append]
  cases hd : p.data with
  | nil => rw [hd] at h; simp at h
  | cons c rest =>
      rw [hd] at h
      simp at h
      simp [h]

/-! ## Lemmas about the worker phase -/

/-- The worker phase sends exactly one file-level event per file. -/
theorem workerRun_events_length (read : String → Except Unit (List Nat))
    (fs : List String) (c : Nat) : (workerRun read fs c).1.length = fs.length := by
  induction fs generalizing c with
  | nil => rfl
  | cons p rest ih => simp [workerRun, ih]

/-- The worker phase contributes exactly one map entry per file. -/
theorem workerRun_digests_length (read : String → Except Unit (List Nat))
    (fs : List String) (c : Nat) : (workerRun read fs c).2.length = fs.length := by
  induction fs generalizing c with
  | nil => rfl
  | cons p rest ih => simp [workerRun, ih]

/-- The keys of the collected map entries are exactly the processed files,
in processing order. -/
theorem workerRun_digests_keys (read : String → Except Unit (List Nat))
    (fs : List String) (c : Nat) : (workerRun read fs c).2.map Prod.fst = fs := by
  induction fs generalizing c with
  | nil => rfl
  | cons p rest ih =>
      cases h : read p with
      | ok content => simp [workerRun, workerStep, calculate_hash_with_blake3, h, ih]
      | error e => simp [workerRun, workerStep, calculate_hash_with_blake3, h, ih]

/-- The `total_hashed_files` values of the `Progress` events, in increment
order, are consecutive from the initial counter value: one per successful
read, none repeated, none skipped. -/
theorem workerRun_progressValues (read : String → Except Unit (List Nat))
    (fs : List String) (c : Nat) :
    progressValues (workerRun read fs c).1 = List.range' c (fs.countP (readOk read)) := by
  induction fs generalizing c with
  | nil => simp [workerRun, progressValues]
  | cons p rest ih =>
      cases h : read p with
      | ok content =>
          have hro : readOk read p = true := by simp [readOk, h]
          simp [workerRun, workerStep, calculate_hash_with_blake3, h, progressValues,
            List.countP_cons, hro, List.range'_succ] at ih ⊢
          exact ih (c + 1)
      | error e =>
          have hro : readOk read p = false := by simp [readOk, h]
          simp [workerRun, workerStep, calculate_hash_with_blake3, h, progressValues,
            List.countP_cons, hro] at ih ⊢
          exact ih c

/-- Every event the worker phase sends is file-level (a `Progress` update
or a per-file `Error`). -/
theorem workerRun_events_fileLevel (read : String → Except Unit (List Nat))
    (fs : List String) (c : Nat) :
    ∀ e ∈ (workerRun read fs c).1, isFileLevelEvent e = true := by
  induction fs generalizing c with
  | nil => intro e he; simp [workerRun] at he
  | cons p rest ih =>
      intro e he
      cases h : read p with
      | ok content =>
          simp [workerRun, workerStep, calculate_hash_with_blake3, h] at he
          rcases he with he | he
          · rw [he]; rfl
          · exact ih _ e he
      | error e2 =>
          simp [workerRun, workerStep, calculate_hash_with_blake3, h] at he
          rcases he with he | he
          · rw [he]; rfl
          · exact ih _ e he

/-- When every read succeeds, every event the worker phase sends is a
`Progress` event. -/
theorem workerRun_events_progress (read : String → Except Unit (List Nat))
    (fs : List String) (c : Nat) (hok : ∀ q ∈ fs, readOk read q = true) :
    ∀ e ∈ (workerRun read fs c).1, isProgressEvent e = true := by
  induction fs generalizing c with
  | nil => intro e he; simp [workerRun] at he
  | cons p rest ih =>
      intro e he
      cases h : read p with
      | ok content =>
          simp [workerRun, workerStep, calculate_hash_with_blake3, h] at he
          rcases he with he | he
          · rw [he]; rfl
          · exact ih _ (fun q hq => hok q (List.mem_cons_of_mem p hq)) e he
      | error e2 =>
          have := hok p (List.mem_cons_self p rest)
          rw [readOk, h] at this
          simp at this

/-- The worker phase sends exactly one per-file `Error` event per failed
read. -/
theorem workerRun_errorCount (read : String → Except Unit (List Nat))
    (fs : List String) (c : Nat) :
    ((workerRun read fs c).1).count (WorkStatus.Error ProgressHashingError.ErrHashingFile) =
      fs.countP (fun q => !(readOk read q)) := by
  induction fs generalizing c with
  | nil => rfl
  | cons p rest ih =>
      cases h : read p with
      | ok content =>
          have hro : readOk read p = true := by simp [readOk, h]
          simp [workerRun, workerStep, calculate_hash_with_blake3, h, List.count_cons,
            List.countP_cons, hro, ih]
      | error e =>
          have hro : readOk read p = false := by simp [readOk, h]
          simp [workerRun, workerStep, calculate_hash_with_blake3, h, List.count_cons,
            List.countP_cons, hro, ih]

/-- A file whose hash-time read fails is mapped to the empty-string
placeholder digest in the collected entries. -/
theorem workerRun_failure_mem (read : String → Except Unit (List Nat))
    (fs : List String) (c : Nat) (p : String) (hp : p ∈ fs)
    (hf : read p = Except.error ()) :
    (p, "") ∈ (workerRun read fs c).2 := by
  induction fs generalizing c with
  | nil => simp at hp
  | cons q rest ih =>
      rcases List.mem_cons.mp hp with hq | hq
      · subst hq
        simp [workerRun, workerStep, calculate_hash_with_blake3, hf]
      · cases h : read q with
        | ok content =>
            simp [workerRun, workerStep, calculate_hash_with_blake3, h]
            exact Or.inr (ih _ hq)
        | error e2 =>
            simp [workerRun, workerStep, calculate_hash_with_blake3, h]
            exact Or.inr (ih _ hq)

/-! ## Lemmas about the receiver-liveness model -/

/-- With the receiver alive, the explicit-liveness worker phase is exactly
the worker phase: every send succeeds. -/
theorem workerRunWithReceiver_alive (read : String → Except Unit (List Nat))
    (fs : List String) (c : Nat) :
    workerRunWithReceiver read true fs c = Except.ok (workerRun read fs c) := by
  induction fs generalizing c with
  | nil => rfl
  | cons p rest ih => simp [workerRunWithReceiver, workerRun, sendUnwrapped, ih]

/-! ## Lemmas about the digest format -/

/-- The sixteen characters a lowercase hexadecimal digest may contain. -/
def hexChars : List Char := "0123456789abcdef".data

/-- Each nibble maps into the lowercase hexadecimal alphabet. -/
theorem hexDigit_mem (n : Nat) (h : n < 16) : hexDigit n ∈ hexChars := by
  revert h
  revert n
  decide

/-- The hex rendering doubles the byte count. -/
theorem flatMap_byteToHex_length (bs : List Nat) :
    (bs.flatMap byteToHex).length = 2 * bs.length := by
  induction bs with
  | nil => rfl
  | cons b rest ih =>
      simp only [List.flatMap_cons, List.length_append, ih, byteToHex]
      simp
      omega

/-- The modelled digest has 32 bytes. -/
theorem blake3Bytes_length (content : List Nat) : (blake3Bytes content).length = 32 := by
  simp [blake3Bytes]

/-- The byte-mixing fold stays below 256. -/
theorem foldl_mod_lt (content : List Nat) (init : Nat) (h : init < 256) :
    content.foldl (fun a b => (a * 31 + b % 256 + 1) % 256) init < 256 := by
  induction content generalizing init with
  | nil => simpa using h
  | cons b rest ih => exact ih _ (Nat.mod_lt _ (by omega))

/-- Every byte of the modelled digest is below 256. -/
theorem blake3Bytes_lt (content : List Nat) : ∀ b ∈ blake3Bytes content, b < 256 := by
  intro b hb
  simp only [blake3Bytes, List.mem_map] at hb
  obtain ⟨i, _, rfl⟩ := hb
  exact foldl_mod_lt content _ (Nat.mod_lt _ (by omega))

/-- The hex rendering of a 32-byte digest has 64 characters. -/
theorem toHex_blake3_length (content : List Nat) :
    (toHex (blake3Bytes content)).length = 64 := by
  show ((blake3Bytes content).flatMap byteToHex).length = 64
  rw [flatMap_byteToHex_length, blake3Bytes_length]

/-- Every character of the hex rendering of in-range bytes is a lowercase
hexadecimal character. -/
theorem toHex_chars (bs : List Nat) (hlt : ∀ b ∈ bs, b < 256) :
    ∀ c ∈ (toHex bs).data, c ∈ hexChars := by
  intro c hc
  have hmem : c ∈ bs.flatMap byteToHex := hc
  rw [List.mem_flatMap] at hmem
  obtain ⟨b, hb, hcb⟩ := hmem
  have hblt := hlt b hb
  simp only [byteToHex, List.mem_cons, List.not_mem_nil, or_false] at hcb
  rcases hcb with h1 | h1
  · rw [h1]; exact hexDigit_mem _ (by omega)
  · rw [h1]; exact hexDigit_mem _ (by omega)

/-! ## The claims -/

/-- C6: when directory traversal fails, the delivered event sequence is
exactly one `Error(ErrCollectingFiles)` and then the channel closes: no
`Started`, no `Progress`, no `Result` event, and no file list (partial or
otherwise) is ever produced by the enumerator. -/
theorem claim_C6 (rootPath : String) (t : FsTree)
    (read : String → Except Unit (List Nat)) (order : List String) (e : Unit)
    (hcol : collect_files_in_dir rootPath t = Except.error e) :
    eventsOf (progressed_hashing rootPath t read order) =
        [WorkStatus.Error ProgressHashingError.ErrCollectingFiles] ∧
      (∀ n, WorkStatus.Started n ∉ eventsOf (progressed_hashing rootPath t read order)) ∧
      (∀ u, WorkStatus.Progress u ∉ eventsOf (progressed_hashing rootPath t read order)) ∧
      (∀ m, WorkStatus.Result m ∉ eventsOf (progressed_hashing rootPath t read order)) ∧
      (∀ l, collect_files_in_dir rootPath t ≠ Except.ok l) := by
  have hev : eventsOf (progressed_hashing rootPath t read order) =
      [WorkStatus.Error ProgressHashingError.ErrCollectingFiles] := by
    simp [progressed_hashing, eventsOf, hcol]
  refine ⟨hev, ?_, ?_, ?_, ?_⟩
  · intro n; rw [hev]; simp
  · intro u; rw [hev]; simp
  · intro m; rw [hev]; simp
  · intro l h; rw [hcol] at h; exact Except.noConfusion h

/-- Witness for C6: a root whose read errors (a nonexistent path) yields
the single collection-failure event. -/
theorem claim_C6_witness :
    eventsOf (progressed_hashing "/missing" FsTree.errorNode
        (fun _ => Except.ok ([] : List Nat)) []) =
      [WorkStatus.Error ProgressHashingError.ErrCollectingFiles] :=
  (claim_C6 "/missing" FsTree.errorNode (fun _ => Except.ok ([] : List Nat)) [] () rfl).1

/-- C7 counterexample: with the relative root "rel" over a directory
holding one regular file "a", enumeration succeeds and returns "rel/a",
which is not an absolute path — the enumerator does not return absolute
paths for a relative root. -/
theorem claim_C7_counterexample :
    collect_files_in_dir "rel" (FsTree.dir [("a", FsTree.file [])]) =
        Except.ok ["rel/a"] ∧
      isAbsolutePath "rel/a" = false := by
  exact ⟨rfl, rfl⟩

/-- C7 amended: on success the enumerator returns exactly the regular-file
paths reachable by recursive descent (directories and non-regular entries
excluded), each of the form root-path ++ suffix; they are absolute
whenever the given root path is absolute, but inherit relativity from a
relative root. -/
theorem claim_C7_amended (rootPath : String) (t : FsTree) (paths : List String)
    (hcol : collect_files_in_dir rootPath t = Except.ok paths) :
    paths = pureFiles rootPath t ∧
      (∀ q ∈ paths, ∃ s, q = rootPath ++ s) ∧
      (isAbsolutePath rootPath = true → ∀ q ∈ paths, isAbsolutePath q = true) := by
  have h := collectLoop_walkItems rootPath t []
  rw [collect_files_in_dir, h] at hcol
  by_cases hef : errorFree t = true
  · rw [if_pos hef] at hcol
    simp only [List.nil_append, Except.ok.injEq] at hcol
    subst hcol
    refine ⟨rfl, pureFiles_shape rootPath t, ?_⟩
    intro habs q hq
    obtain ⟨s, hs⟩ := pureFiles_shape rootPath t q hq
    rw [hs]
    exact isAbsolutePath_append rootPath s habs
  · rw [if_neg hef] at hcol
    exact absurd hcol (by simp)

/-- Witness for the amended C7: an absolute root with a nested file, a
non-regular sibling and a subdirectory enumerates to exactly the two
regular-file paths. -/
theorem claim_C7_amended_witness :
    (["/r/a", "/r/d/b"] : List String) =
      pureFiles "/r" (FsTree.dir [("a", FsTree.file []),
        ("d", FsTree.dir [("b", FsTree.file [])]), ("s", FsTree.other)]) :=
  (claim_C7_amended "/r"
    (FsTree.dir [("a", FsTree.file []),
      ("d", FsTree.dir [("b", FsTree.file [])]), ("s", FsTree.other)])
    ["/r/a", "/r/d/b"] rfl).1

/-- C8: every successful hash returns a digest string of exactly 64
characters, all from the lowercase hexadecimal alphabet (a 256-bit
digest rendered in lowercase hex). -/
theorem claim_C8 (read : String → Except Unit (List Nat)) (path : String)
    (content : List Nat) (h : read path = Except.ok content) :
    ∃ digest, calculate_hash_with_blake3 read path = Except.ok digest ∧
      digest.length = 64 ∧ ∀ c ∈ digest.data, c ∈ hexChars := by
  refine ⟨toHex (blake3Bytes content), ?_, ?_, ?_⟩
  · simp [calculate_hash_with_blake3, h]
  · exact toHex_blake3_length content
  · exact toHex_chars _ (blake3Bytes_lt content)

/-- Witness for C8: hashing an empty file yields a 64-character lowercase
hex digest. -/
theorem claim_C8_witness :
    ∃ digest, calculate_hash_with_blake3 (fun _ => Except.ok ([] : List Nat)) "/f" =
        Except.ok digest ∧ digest.length = 64 ∧ ∀ c ∈ digest.data, c ∈ hexChars :=
  claim_C8 (fun _ => Except.ok ([] : List Nat)) "/f" [] rfl

/-- C9: the content hasher is a deterministic function of the file's byte
content: two separate invocations (even against different file-system
states or under different paths) that read the same bytes return
identical digest strings. -/
theorem claim_C9 (read1 read2 : String → Except Unit (List Nat))
    (path1 path2 : String) (content : List Nat)
    (h1 : read1 path1 = Except.ok content) (h2 : read2 path2 = Except.ok content) :
    calculate_hash_with_blake3 read1 path1 = calculate_hash_with_blake3 read2 path2 := by
  simp [calculate_hash_with_blake3, h1, h2]

/-- Witness for C9: the same one-byte content hashed under two different
paths gives the same digest. -/
theorem claim_C9_witness :
    calculate_hash_with_blake3 (fun _ => Except.ok ([7] : List Nat)) "/a" =
      calculate_hash_with_blake3 (fun _ => Except.ok ([7] : List Nat)) "/b" :=
  claim_C9 (fun _ => Except.ok ([7] : List Nat)) (fun _ => Except.ok ([7] : List Nat))
    "/a" "/b" [7] rfl rfl

/-- C10: enumeration runs synchronously inside the async function body:
the `Started`(N) send (or the `ErrCollectingFiles` send on traversal
failure) belongs to the sends executed before the stream is returned, so
it is already in the channel by the time the caller receives the stream;
everything the spawned blocking task sends afterwards is hashing work — a
file-level event or the terminal `Result`. -/
theorem claim_C10 (rootPath : String) (t : FsTree)
    (read : String → Except Unit (List Nat)) (order : List String) :
    (∀ paths, collect_files_in_dir rootPath t = Except.ok paths →
      (progressed_hashing rootPath t read order).sentBeforeReturn =
        [WorkStatus.Started paths.length]) ∧
      (∀ e, collect_files_in_dir rootPath t = Except.error e →
        (progressed_hashing rootPath t read order).sentBeforeReturn =
            [WorkStatus.Error ProgressHashingError.ErrCollectingFiles] ∧
          (progressed_hashing rootPath t read order).blockingTask = []) ∧
      (∀ ev ∈ (progressed_hashing rootPath t read order).blockingTask,
        isFileLevelEvent ev = true ∨ ∃ m, ev = WorkStatus.Result m) := by
  refine ⟨?_, ?_, ?_⟩
  · intro paths h
    simp [progressed_hashing, h]
  · intro e h
    simp [progressed_hashing, h]
  · intro ev hev
    cases hc : collect_files_in_dir rootPath t with
    | error e => simp [progressed_hashing, hc] at hev
    | ok paths =>
        simp only [progressed_hashing, hc, List.mem_append, List.mem_singleton] at hev
        rcases hev with hev | hev
        · exact Or.inl (workerRun_events_fileLevel read order 0 ev hev)
        · exact Or.inr ⟨_, hev⟩

/-- Witness for C10: on an empty directory the `Started`(0) event is
already among the sends executed before the stream is returned. -/
theorem claim_C10_witness :
    (progressed_hashing "/r" (FsTree.dir [])
        (fun _ => Except.ok ([] : List Nat)) []).sentBeforeReturn =
      [WorkStatus.Started 0] :=
  (claim_C10 "/r" (FsTree.dir []) (fun _ => Except.ok ([] : List Nat)) []).1 [] rfl

/-- C3 counterexample: the claim says a send into a closed channel is a
silent no-op and in-flight work runs to completion. In the code every
worker send is `tx.send(...).unwrap()`, so with the receiver dropped and
two files enumerated the blocking task panics at its first send instead
of completing: the run faults and the second file is never processed. -/
theorem claim_C3_counterexample :
    blockingTaskWithReceiver (fun _ => Except.ok ([] : List Nat)) false ["a", "b"] =
      Except.error sendPanicMsg := rfl

/-- C3 amended: once the consumer has dropped the receiver, the next
`.unwrap()`-ed send panics the blocking task, which therefore aborts and
abandons all remaining per-file work and the final `Result` send (the
panic is contained in the spawned task, so the process neither hangs nor
crashes, but sends are not silent no-ops and remaining computations do
not run to completion); while the receiver is alive every send succeeds
and the task sends exactly the worker events followed by the `Result`. -/
theorem claim_C3_amended (read : String → Except Unit (List Nat)) (order : List String) :
    blockingTaskWithReceiver read false order = Except.error sendPanicMsg ∧
      blockingTaskWithReceiver read true order =
        Except.ok (workerEvents read order ++ [WorkStatus.Result (workerDigests read order)]) := by
  constructor
  · cases order with
    | nil => rfl
    | cons p rest => rfl
  · simp [blockingTaskWithReceiver, workerRunWithReceiver_alive, sendUnwrapped,
      workerEvents, workerDigests]

/-- C1: with successful enumeration of N files and no file read errors,
the delivered sequence is exactly one `Started`(N) first, then exactly N
file-level events (all `Progress` under the no-error hypothesis), then
exactly one terminal `Result` whose map has exactly N entries (its keys
are the N enumerated paths, pairwise distinct in a real file system); in
particular an empty directory gives `Started`(0) then an empty `Result`
and no `Progress` events. -/
theorem claim_C1 (rootPath : String) (t : FsTree)
    (read : String → Except Unit (List Nat)) (order paths : List String)
    (hcol : collect_files_in_dir rootPath t = Except.ok paths)
    (hperm : order.Perm paths)
    (hok : ∀ q ∈ order, readOk read q = true) :
    eventsOf (progressed_hashing rootPath t read order) =
        WorkStatus.Started paths.length ::
          (workerEvents read order ++ [WorkStatus.Result (workerDigests read order)]) ∧
      (workerEvents read order).length = paths.length ∧
      (∀ e ∈ workerEvents read order, isProgressEvent e = true) ∧
      (workerDigests read order).length = paths.length ∧
      (paths.Nodup → ((workerDigests read order).map Prod.fst).dedup.length = paths.length) ∧
      (paths = [] → eventsOf (progressed_hashing rootPath t read order) =
        [WorkStatus.Started 0, WorkStatus.Result []]) := by
  have hlen : order.length = paths.length := hperm.length_eq
  refine ⟨?_, ?_, ?_, ?_, ?_, ?_⟩
  · simp [progressed_hashing, eventsOf, hcol]
  · show ((workerRun read order 0).1).length = paths.length
    rw [workerRun_events_length, hlen]
  · exact workerRun_events_progress read order 0 hok
  · show ((workerRun read order 0).2).length = paths.length
    rw [workerRun_digests_length, hlen]
  · intro hnd
    show (((workerRun read order 0).2).map Prod.fst).dedup.length = paths.length
    rw [workerRun_digests_keys, List.dedup_eq_self.mpr (hperm.nodup_iff.mpr hnd)]
    exact hlen
  · intro hnil
    subst hnil
    have horder : order = [] := hperm.eq_nil
    subst horder
    simp [progressed_hashing, eventsOf, hcol, workerEvents, workerDigests, workerRun]

/-- Witness for C1: an empty directory yields exactly `Started`(0)
followed by an empty `Result`. -/
theorem claim_C1_witness :
    eventsOf (progressed_hashing "/r" (FsTree.dir [])
        (fun _ => Except.ok ([] : List Nat)) []) =
      [WorkStatus.Started 0, WorkStatus.Result []] :=
  (claim_C1 "/r" (FsTree.dir []) (fun _ => Except.ok ([] : List Nat)) [] [] rfl
    (List.Perm.refl []) (fun q hq => absurd hq (List.not_mem_nil q))).2.2.2.2.2 rfl

/-- C2: one failing file does not abort the pipeline: exactly one
`Error(ErrHashingFile)` event is sent, the failing path is recorded with
the empty-string placeholder digest in the final map, and the remaining
files are still processed, so the terminal `Result` is still sent with
one entry per enumerated file path. -/
theorem claim_C2 (rootPath : String) (t : FsTree)
    (read : String → Except Unit (List Nat)) (paths l1 l2 : List String) (p0 : String)
    (hcol : collect_files_in_dir rootPath t = Except.ok paths)
    (hperm : (l1 ++ p0 :: l2).Perm paths)
    (hfail : read p0 = Except.error ())
    (hrest : ∀ q ∈ l1 ++ l2, readOk read q = true) :
    eventsOf (progressed_hashing rootPath t read (l1 ++ p0 :: l2)) =
        WorkStatus.Started paths.length ::
          (workerEvents read (l1 ++ p0 :: l2) ++
            [WorkStatus.Result (workerDigests read (l1 ++ p0 :: l2))]) ∧
      (workerEvents read (l1 ++ p0 :: l2)).count
          (WorkStatus.Error ProgressHashingError.ErrHashingFile) = 1 ∧
      (p0, "") ∈ workerDigests read (l1 ++ p0 :: l2) ∧
      (workerDigests read (l1 ++ p0 :: l2)).length = paths.length ∧
      (workerEvents read (l1 ++ p0 :: l2)).length = paths.length := by
  have hlen : (l1 ++ p0 :: l2).length = paths.length := hperm.length_eq
  have hro0 : readOk read p0 = false := by simp [readOk, hfail]
  refine ⟨?_, ?_, ?_, ?_, ?_⟩
  · simp [progressed_hashing, eventsOf, hcol]
  · show ((workerRun read (l1 ++ p0 :: l2) 0).1).count
        (WorkStatus.Error ProgressHashingError.ErrHashingFile) = 1
    rw [workerRun_errorCount]
    have hz1 : l1.countP (fun q => !(readOk read q)) = 0 :=
      List.countP_eq_zero.mpr (fun q hq => by
        simp [hrest q (List.mem_append.mpr (Or.inl hq))])
    have hz2 : l2.countP (fun q => !(readOk read q)) = 0 :=
      List.countP_eq_zero.mpr (fun q hq => by
        simp [hrest q (List.mem_append.mpr (Or.inr hq))])
    simp [List.countP_append, List.countP_cons, hz1, hz2, hro0]
  · exact workerRun_failure_mem read (l1 ++ p0 :: l2) 0 p0 (by simp) hfail
  · show ((workerRun read (l1 ++ p0 :: l2) 0).2).length = paths.length
    rw [workerRun_digests_length, hlen]
  · show ((workerRun read (l1 ++ p0 :: l2) 0).1).length = paths.length
    rw [workerRun_events_length, hlen]

/-- Witness for C2: a single enumerated file whose hash-time read fails is
recorded with the empty-string placeholder in the final map. -/
theorem claim_C2_witness :
    ("/r/a", "") ∈ workerDigests (fun _ => Except.error ()) ["/r/a"] :=
  (claim_C2 "/r" (FsTree.dir [("a", FsTree.file [1])]) (fun _ => Except.error ())
    ["/r/a"] [] [] "/r/a" rfl (List.Perm.refl _) rfl
    (fun q hq => absurd hq (List.not_mem_nil q))).2.2.1

/-- C4: each `Progress` event carries the counter value fetched before its
atomic increment (only successful hashes increment the counter), so in
increment order the values are exactly 0,1,...,k-1; and for any delivery
order of those racing sends the observed `total_hashed_files` values are
a permutation of {0,...,k-1} — none repeats, none is skipped — where k is
the number of successfully hashed files. -/
theorem claim_C4 (read : String → Except Unit (List Nat)) (order : List String)
    (delivered : List WorkStatus)
    (hdel : delivered.Perm (workerEvents read order)) :
    progressValues (workerEvents read order) =
        List.range (order.countP (readOk read)) ∧
      (progressValues delivered).Perm (List.range (order.countP (readOk read))) ∧
      (progressValues delivered).length = order.countP (readOk read) ∧
      (progressValues delivered).Nodup ∧
      (∀ v ∈ progressValues delivered, v < order.countP (readOk read)) := by
  have h1 : progressValues (workerEvents read order) =
      List.range (order.countP (readOk read)) := by
    show progressValues (workerRun read order 0).1 = _
    rw [workerRun_progressValues]
    exact (List.range_eq_range' _).symm
  have h2 : (progressValues delivered).Perm (progressValues (workerEvents read order)) :=
    hdel.filterMap _
  rw [h1] at h2
  refine ⟨h1, h2, ?_, ?_, ?_⟩
  · rw [h2.length_eq, List.length_range]
  · exact h2.nodup_iff.mpr (List.nodup_range _)
  · intro v hv
    exact List.mem_range.mp (h2.subset hv)

/-- Witness for C4: two successfully hashed files, with the `Progress`
events delivered in increment order, carry the values 0 and 1. -/
theorem claim_C4_witness :
    progressValues (workerEvents (fun _ => Except.ok ([] : List Nat)) ["a", "b"]) =
      List.range ((["a", "b"] : List String).countP
        (readOk (fun _ => Except.ok ([] : List Nat)))) :=
  (claim_C4 (fun _ => Except.ok ([] : List Nat)) ["a", "b"]
    (workerEvents (fun _ => Except.ok ([] : List Nat)) ["a", "b"])
    (List.Perm.refl _)).1

/-- C5: with successful enumeration, `Started` is delivered first and the
single terminal `Result` last, with only file-level events in between,
and this holds for every FIFO delivery of the racing worker sends: any
delivered sequence is `Started N` followed by a permutation of the worker
events followed by the `Result`. -/
theorem claim_C5 (rootPath : String) (t : FsTree)
    (read : String → Except Unit (List Nat)) (order paths : List String)
    (delivered : List WorkStatus)
    (hcol : collect_files_in_dir rootPath t = Except.ok paths)
    (hdel : delivered.Perm (workerEvents read order)) :
    (WorkStatus.Started paths.length ::
        (delivered ++ [WorkStatus.Result (workerDigests read order)])).Perm
        (eventsOf (progressed_hashing rootPath t read order)) ∧
      (WorkStatus.Started paths.length ::
        (delivered ++ [WorkStatus.Result (workerDigests read order)])).head? =
        some (WorkStatus.Started paths.length) ∧
      (WorkStatus.Started paths.length ::
        (delivered ++ [WorkStatus.Result (workerDigests read order)])).getLast? =
        some (WorkStatus.Result (workerDigests read order)) ∧
      (∀ e ∈ delivered, isFileLevelEvent e = true) := by
  refine ⟨?_, rfl, ?_, ?_⟩
  · have hev : eventsOf (progressed_hashing rootPath t read order) =
        WorkStatus.Started paths.length ::
          (workerEvents read order ++ [WorkStatus.Result (workerDigests read order)]) := by
      simp [progressed_hashing, eventsOf, hcol]
    rw [hev]
    exact (hdel.append_right [WorkStatus.Result (workerDigests read order)]).cons _
  · rw [show WorkStatus.Started paths.length ::
        (delivered ++ [WorkStatus.Result (workerDigests read order)]) =
        (WorkStatus.Started paths.length :: delivered) ++
          [WorkStatus.Result (workerDigests read order)] from rfl]
    exact List.getLast?_concat _
  · intro e he
    exact workerRun_events_fileLevel read order 0 e (hdel.subset he)

/-- Witness for C5: on an empty directory the delivered sequence starts
with `Started`(0). -/
theorem claim_C5_witness :
    (WorkStatus.Started 0 ::
        (([] : List WorkStatus) ++
          [WorkStatus.Result (workerDigests (fun _ => Except.ok ([] : List Nat)) [])])).head? =
      some (WorkStatus.Started 0) :=
  (claim_C5 "/r" (FsTree.dir []) (fun _ => Except.ok ([] : List Nat)) [] [] [] rfl
    (List.Perm.refl _)).2.1

end ProgressedHashing
